import Mathlib

/-!
Verification of the kernel session and transport layer of the protium
repository: port allocation (src/utils/port-finder.ts), wire framing
(src/types/execution.ts, RawSocket), execution correlation
(src/kernel/direct/execution-future.ts), interrupt routing
(src/kernel/direct/direct-kernel-connection.ts) and restart identity
(src/kernel/direct/direct-kernel-provider.ts), shallowly embedded in Lean.

Environment effects are made explicit: the result of a bind-and-close
probe on a TCP port is an oracle `avail : Nat → Bool`, the value of
`Math.random` enters as a natural-number offset, and the Node `JSON` and
`crypto` library primitives are parameters of the transport embedding.
-/

namespace PortFinder

/-- Embedding of `findAvailablePort` (src/utils/port-finder.ts, lines
36-52).  The oracle `avail` answers the `isPortAvailable` probe for each
port; the loop variable `i` of the source counts the attempts already
spent, so the embedding recurses on the attempts that remain while the
candidate port counts up.  `maxAttempts` defaults to 100 at every call
site in the source. -/
def findAvailablePort (avail : Nat → Bool) : Nat → Nat → Except String Nat
  | _, 0 => .error "Could not find available port"
  | port, attempts + 1 =>
    if avail port then .ok port else findAvailablePort avail (port + 1) attempts

/-- The verification loop of `findConsecutiveAvailablePorts`
(src/utils/port-finder.ts, lines 74-80): index `i` scans the `count`
consecutive ports above `base`; when a port in the run is unavailable the
code moves the base to `findAvailablePort(base + count)` and resets the
index (`i = -1` in the source, so the next iteration starts at `i = 0`).
`fuel` bounds the number of loop iterations so that the embedding is a
total function; `none` means the fuel ran out before the loop finished. -/
def verifyLoop (avail : Nat → Bool) (count : Nat) :
    Nat → Nat → Nat → Option (Except String Nat)
  | _, _, 0 => none
  | base, i, fuel + 1 =>
    if count ≤ i then some (.ok base)
    else if avail (base + i) then verifyLoop avail count base (i + 1) fuel
    else
      match findAvailablePort avail (base + count) 100 with
      | .error e => some (.error e)
      | .ok newBase => verifyLoop avail count newBase 0 fuel

/-- Embedding of `findConsecutiveAvailablePorts` (src/utils/port-finder.ts,
lines 62-83).  `rand` is the sampled value of
`Math.floor(Math.random() * (maxPort - minPort - count))`, so the starting
candidate is `minPort + rand`; `maxPort` enters the source computation only
through that sampling, which is why it is otherwise unused here.  The
defaults at the call sites are `minPort = 49152`, `maxPort = 65535`. -/
def findConsecutiveAvailablePorts (avail : Nat → Bool)
    (rand count minPort maxPort fuel : Nat) : Option (Except String Nat) :=
  let basePort := minPort + rand
  match findAvailablePort avail basePort 100 with
  | .error e => some (.error e)
  | .ok availableBasePort => verifyLoop avail count availableBasePort 0 fuel

lemma findAvailablePort_ok {avail : Nat → Bool} :
    ∀ attempts start p, findAvailablePort avail start attempts = .ok p →
      start ≤ p ∧ avail p = true := by
  intro attempts
  induction attempts with
  | zero => intro start p h; simp [findAvailablePort] at h
  | succ n ih =>
    intro start p h
    by_cases hs : avail start
    · simp [findAvailablePort, hs] at h
      exact ⟨le_of_eq h, h ▸ hs⟩
    · simp [findAvailablePort, hs] at h
      obtain ⟨h1, h2⟩ := ih (start + 1) p h
      exact ⟨by omega, h2⟩

lemma findAvailablePort_allBusy {avail : Nat → Bool} {B : Nat}
    (hB : ∀ p, B ≤ p → avail p = false) :
    ∀ attempts start, B ≤ start →
      findAvailablePort avail start attempts = .error "Could not find available port" := by
  intro attempts
  induction attempts with
  | zero => intro start _; rfl
  | succ n ih =>
    intro start hs
    simp [findAvailablePort, hB start hs]
    exact ih (start + 1) (by omega)

lemma verifyLoop_allAvail {avail : Nat → Bool} {count : Nat}
    (hall : ∀ p, avail p = true) :
    ∀ fuel i base, count - i < fuel →
      verifyLoop avail count base i fuel = some (.ok base) := by
  intro fuel
  induction fuel with
  | zero => intro i base h; omega
  | succ n ih =>
    intro i base h
    by_cases hc : count ≤ i
    · simp [verifyLoop, hc]
    · simp [verifyLoop, hc, hall (base + i)]
      exact ih (i + 1) base (by omega)

/-- Fuel sufficiency for the verification loop: once every port from `B`
on is unavailable, `(count + 1 - i) + (count + 2) * (B - base)` iterations
are enough for the loop to either finish or run the inner scan out of
attempts. -/
lemma verifyLoop_isSome {avail : Nat → Bool} {count B : Nat}
    (hc : 1 ≤ count) (hB : ∀ p, B ≤ p → avail p = false) :
    ∀ fuel base i, i ≤ count →
      (count + 1 - i) + (count + 2) * (B - base) ≤ fuel →
      (verifyLoop avail count base i fuel).isSome = true := by
  intro fuel
  induction fuel with
  | zero => intro base i hi hf; omega
  | succ n ih =>
    intro base i hi hf
    by_cases hci : count ≤ i
    · simp [verifyLoop, hci]
    · by_cases ha : avail (base + i)
      · simp only [verifyLoop, if_neg (by omega : ¬ count ≤ i), ha, if_true]
        refine ih base (i + 1) (by omega) ?_
        have : (count + 1 - (i + 1)) ≤ (count + 1 - i) - 1 := by omega
        omega
      · simp only [verifyLoop, if_neg (by omega : ¬ count ≤ i), ha,
          Bool.false_eq_true, if_false]
        cases hfa : findAvailablePort avail (base + count) 100 with
        | error e => simp
        | ok newBase =>
          simp only
          obtain ⟨hge, hav⟩ := findAvailablePort_ok 100 (base + count) newBase hfa
          have hnbB : newBase < B := by
            by_contra hcon
            rw [hB newBase (by omega)] at hav
            exact Bool.false_ne_true hav
          refine ih newBase 0 (by omega) ?_
          -- arithmetic: the base advanced by at least `count`, which pays
          -- for the reset of the index.
          have h1 : B - newBase + count ≤ B - base := by omega
          have h2 : (count + 2) * (B - newBase + count) ≤ (count + 2) * (B - base) :=
            Nat.mul_le_mul_left _ h1
          have h3 : (count + 2) * (B - newBase + count)
              = (count + 2) * (B - newBase) + (count + 2) * count := by ring
          have h4 : count + 2 ≤ (count + 2) * count :=
            Nat.le_mul_of_pos_right (count + 2) (by omega)
          have h5 : (count + 2) * (B - newBase) + (count + 2)
              ≤ (count + 2) * (B - base) := by omega
          omega

/-- The verification loop only ever moves the base upward: the reset path
rescans from `findAvailablePort(base + count)`, which itself only counts
up. -/
lemma verifyLoop_ok_ge {avail : Nat → Bool} {count : Nat} :
    ∀ fuel base i b, verifyLoop avail count base i fuel = some (.ok b) →
      base ≤ b := by
  intro fuel
  induction fuel with
  | zero => intro base i b h; simp [verifyLoop] at h
  | succ n ih =>
    intro base i b h
    by_cases hc : count ≤ i
    · simp [verifyLoop, hc] at h
      omega
    · by_cases ha : avail (base + i)
      · simp only [verifyLoop, if_neg hc, ha, if_true] at h
        exact ih base (i + 1) b h
      · simp only [verifyLoop, if_neg hc, ha, Bool.false_eq_true,
          if_false] at h
        cases hfa : findAvailablePort avail (base + count) 100 with
        | error e => rw [hfa] at h; simp at h
        | ok newBase =>
          rw [hfa] at h
          simp only at h
          have h1 := (findAvailablePort_ok 100 (base + count) newBase hfa).1
          have h2 := ih newBase 0 b h
          omega

/-- C1 (counterexample): with the default range `minPort = 49152`,
`maxPort = 65535`, `count = 1`, a random offset of 16381 (within the range
sampled by the source) and an environment in which only ports 65533 and
65534 are busy, `findConsecutiveAvailablePorts` returns base port 65535.
The single allocated port equals `rangeMax`, so it is not `< rangeMax` as
the claim requires: the probing loop never re-checks `maxPort`. -/
theorem c1_range_counterexample :
    findConsecutiveAvailablePorts
        (fun p => !(p == 65533 || p == 65534)) 16381 1 49152 65535 5
      = some (.ok 65535)
      ∧ ¬ (65535 + 0 < 65535) := by
  exact ⟨rfl, by omega⟩

/-- C1 (amended).  Unconditionally — for EVERY availability oracle — a
successful return of `findConsecutiveAvailablePorts` yields a base no
lower than `minPort + rand` (both probing loops only ever count upward),
so the `count` allocated consecutive ports are pairwise distinct and all
`≥ minPort`.  When additionally every probed port is available — no busy
ports pushing the scan past the top of the range — the returned base is
exactly `minPort + rand` and all allocated ports are also `< maxPort`.
The upper bound is only lost when unavailable ports force a rescan (see
`c1_range_counterexample`). -/
theorem c1_ports_in_range_when_available (avail : Nat → Bool)
    (rand count minPort maxPort fuel : Nat) :
    (∀ base,
      findConsecutiveAvailablePorts avail rand count minPort maxPort fuel
          = some (.ok base) →
      minPort + rand ≤ base
      ∧ (∀ i, i < count → minPort ≤ base + i)
      ∧ (∀ i j, i < count → j < count → i ≠ j → base + i ≠ base + j))
    ∧ ((∀ p, avail p = true) → minPort + rand + count < maxPort →
        count + 1 ≤ fuel →
        findConsecutiveAvailablePorts avail rand count minPort maxPort fuel
            = some (.ok (minPort + rand))
        ∧ (∀ i, i < count →
            minPort ≤ minPort + rand + i ∧ minPort + rand + i < maxPort)
        ∧ (∀ i j, i < count → j < count → i ≠ j →
            minPort + rand + i ≠ minPort + rand + j)) := by
  constructor
  · intro base h
    have hge : minPort + rand ≤ base := by
      simp only [findConsecutiveAvailablePorts] at h
      cases hfa : findAvailablePort avail (minPort + rand) 100 with
      | error e => rw [hfa] at h; simp at h
      | ok b0 =>
        rw [hfa] at h
        simp only at h
        have h1 := (findAvailablePort_ok 100 (minPort + rand) b0 hfa).1
        have h2 := verifyLoop_ok_ge fuel b0 0 base h
        omega
    exact ⟨hge, fun i _ => by omega, fun i j _ _ hij => by omega⟩
  · intro hall hrand hfuel
    refine ⟨?_, fun i hi => ⟨by omega, by omega⟩, fun i j _ _ hij => by omega⟩
    have h1 : findAvailablePort avail (minPort + rand) 100
        = .ok (minPort + rand) := by
      simp [findAvailablePort, hall (minPort + rand)]
    simp only [findConsecutiveAvailablePorts, h1]
    exact verifyLoop_allAvail hall fuel 0 (minPort + rand) (by omega)

theorem c1_ports_in_range_witness :
    ((100 + 3 ≤ 103
      ∧ (∀ i, i < 5 → 100 ≤ 103 + i)
      ∧ (∀ i j, i < 5 → j < 5 → i ≠ j → 103 + i ≠ 103 + j))
    ∧ (findConsecutiveAvailablePorts (fun _ => true) 3 5 100 200 6
          = some (.ok 103)
      ∧ (∀ i, i < 5 → 100 ≤ 103 + i ∧ 103 + i < 200)
      ∧ (∀ i j, i < 5 → j < 5 → i ≠ j → 103 + i ≠ 103 + j)))
    ∧ ((65533 ≤ 65535
      ∧ (∀ i, i < 1 → 49152 ≤ 65535 + i)
      ∧ (∀ i j, i < 1 → j < 1 → i ≠ j → 65535 + i ≠ 65535 + j))) :=
  ⟨⟨(c1_ports_in_range_when_available (fun _ => true) 3 5 100 200 6).1
      103 rfl,
    (c1_ports_in_range_when_available (fun _ => true) 3 5 100 200 6).2
      (fun _ => rfl) (by omega) (by omega)⟩,
   (c1_ports_in_range_when_available
      (fun p => !(p == 65533 || p == 65534)) 16381 1 49152 65535 5).1
      65535 rfl⟩

/-- C2: the consecutive-port allocation always terminates in a bounded
number of probe attempts.  TCP port numbers are finite, so there is a
bound `B` (in reality 65536) beyond which every bind probe fails; under
that assumption, for any count `≥ 1`, any random offset and any range,
fuel `(count + 1) + (count + 2) * B` already suffices for
`findConsecutiveAvailablePorts` to produce an answer — either a base port
or the port-exhaustion error thrown by `findAvailablePort` after its 100
attempts — despite the index reset (`i = -1`) rescans. -/
theorem c2_allocation_terminates (avail : Nat → Bool)
    (rand count minPort maxPort B : Nat)
    (hc : 1 ≤ count) (hB : ∀ p, B ≤ p → avail p = false) :
    (findConsecutiveAvailablePorts avail rand count minPort maxPort
        ((count + 1) + (count + 2) * B)).isSome = true := by
  unfold findConsecutiveAvailablePorts
  cases hfa : findAvailablePort avail (minPort + rand) 100 with
  | error e => simp [hfa]
  | ok b =>
    simp only [hfa]
    refine verifyLoop_isSome hc hB _ b 0 (by omega) ?_
    have h1 : (count + 2) * (B - b) ≤ (count + 2) * B :=
      Nat.mul_le_mul_left _ (by omega)
    omega

theorem c2_allocation_terminates_witness :
    (findConsecutiveAvailablePorts (fun p => decide (p < 20) && decide (p % 2 = 0))
        0 2 10 30 ((2 + 1) + (2 + 2) * 20)).isSome = true :=
  c2_allocation_terminates (fun p => decide (p < 20) && decide (p % 2 = 0))
    0 2 10 30 20 (by omega)
    (fun p hp => by simp [decide_eq_false (by omega : ¬ p < 20)])

end PortFinder

namespace Wire

/-- JSON values, the data passed through Node's `JSON.stringify` and
`JSON.parse` by the transport code. -/
inductive Json where
  | null : Json
  | bool : Bool → Json
  | num : Int → Json
  | str : String → Json
  | arr : List Json → Json
  | obj : List (String × Json) → Json

/-- JavaScript truthiness of a JSON value: `null`, `false`, `0` and `""`
are falsy; every object and array (including empty ones) is truthy. -/
def jsTruthy : Json → Bool
  | .null => false
  | .bool b => b
  | .num n => !(n == 0)
  | .str s => !(s == "")
  | .arr _ => true
  | .obj _ => true

/-- `x || {}` from the source (`message.parent_header || {}` etc.). -/
def orEmptyObj (v : Json) : Json := if jsTruthy v then v else .obj []

/-- A Jupyter message as the transport sees it: the four JSON payloads and
the trailing raw binary buffers (modelled as strings, as `Buffer`
contents). -/
structure JupyterMessage where
  header : Json
  parent_header : Json
  metadata : Json
  content : Json
  buffers : List String

/-- Embedding of `RawSocket.serializeMessage` (src/types/execution.ts,
lines 702-729).  `stringify` is Node's `JSON.stringify` and `hmacHex` is
`crypto.createHmac("sha256", key)` followed by `update` on each buffer and
a hex digest — the streamed updates amount to HMAC over the concatenation
of the four JSON buffers.  The produced frame is
`[delimiter, signature, header, parent_header, metadata, content,
...buffers]`. -/
def serializeMessage (stringify : Json → String)
    (hmacHex : String → String → String) (key : String)
    (m : JupyterMessage) : List String :=
  let header := stringify m.header
  let parentHeader := stringify (orEmptyObj m.parent_header)
  let metadata := stringify (orEmptyObj m.metadata)
  let content := stringify (orEmptyObj m.content)
  let signature := hmacHex key (header ++ parentHeader ++ metadata ++ content)
  "<IDS|MSG>" :: signature :: header :: parentHeader :: metadata :: content
    :: m.buffers

/-- The delimiter scan of `RawSocket.deserializeMessage`: index of the
first `<IDS|MSG>` buffer, or the length of the frame when absent. -/
def findDelimiterIdx : List String → Nat
  | [] => 0
  | p :: rest => if p = "<IDS|MSG>" then 0 else findDelimiterIdx rest + 1

/-- `msgParts[i]?.toString() || "\x7b\x7d"` from the source: an absent or
empty buffer is replaced by the two-character string `\x7b\x7d` (an empty
JSON object). -/
def bufferStrOr (parts : List String) (i : Nat) : String :=
  match parts.get? i with
  | some s => if s = "" then "\x7b\x7d" else s
  | none => "\x7b\x7d"

/-- Embedding of `RawSocket.deserializeMessage` (src/types/execution.ts,
lines 667-700).  The delimiter is located first (routing-identity prefixes
are skipped), then the frame must still hold at least 4 more buffers
(`partIndex + 4 > msgParts.length` throws); the signature at `partIndex`
is skipped, the four JSON buffers are read at `partIndex + 1 .. + 4`
(falling back to an empty object when absent or empty) and parsed, and the
remaining buffers from `partIndex + 5` on are the binary attachments.  A
`JSON.parse` failure throws, modelled by `parse` returning `none`. -/
def deserializeMessage (parse : String → Option Json)
    (msgParts : List String) : Except String JupyterMessage :=
  let partIndex := findDelimiterIdx msgParts + 1
  if msgParts.length < partIndex + 4 then .error "Invalid message format"
  else
    match parse (bufferStrOr msgParts (partIndex + 1)),
        parse (bufferStrOr msgParts (partIndex + 2)),
        parse (bufferStrOr msgParts (partIndex + 3)),
        parse (bufferStrOr msgParts (partIndex + 4)) with
    | some h, some ph, some mta, some c =>
        .ok ⟨h, ph, mta, c, msgParts.drop (partIndex + 5)⟩
    | _, _, _, _ => .error "JSON parse error"

/-- Embedding of the per-channel receive loop `RawSocket.receiveMessages`
(src/types/execution.ts, lines 632-665): every inbound frame is
deserialized inside a `try`; on failure the error is logged and the loop
continues with the next frame.  Returns the messages delivered to
`onMessage`, in arrival order, together with the number of logged
per-frame errors. -/
def receiveMessages (parse : String → Option Json)
    (frames : List (List String)) : List JupyterMessage × Nat :=
  match frames with
  | [] => ([], 0)
  | f :: rest =>
    let acc := receiveMessages parse rest
    match deserializeMessage parse f with
    | .ok m => (m :: acc.1, acc.2)
    | .error _ => (acc.1, acc.2 + 1)

/- A concrete executable JSON printer, used to instantiate the
`JSON.stringify` parameter of the transport embedding in witnesses. -/
mutual

def encode : Json → String
  | .null => "null"
  | .bool true => "true"
  | .bool false => "false"
  | .num n => toString n
  | .str s => "\"" ++ s ++ "\""
  | .arr xs => "[" ++ encodeItems xs ++ "]"
  | .obj fs => "\x7b" ++ encodeFields fs ++ "\x7d"

def encodeItems : List Json → String
  | [] => ""
  | [x] => encode x
  | x :: y :: xs => encode x ++ "," ++ encodeItems (y :: xs)

def encodeFields : List (String × Json) → String
  | [] => ""
  | [(k, v)] => "\"" ++ k ++ "\":" ++ encode v
  | (k, v) :: f :: fs =>
      "\"" ++ k ++ "\":" ++ encode v ++ "," ++ encodeFields (f :: fs)

end

def strChars : List Char → Option (List Char × List Char)
  | [] => none
  | c :: cs =>
    if c = '"' then some ([], cs)
    else
      match strChars cs with
      | some (s, r) => some (c :: s, r)
      | none => none

def digitsAux : List Char → Nat → Nat × List Char
  | [], acc => (acc, [])
  | c :: cs, acc =>
    if c.isDigit then digitsAux cs (acc * 10 + (c.toNat - 48)) else (acc, c :: cs)

/- A concrete executable JSON reader (fuel-bounded recursive descent over
the character list), used to instantiate the `JSON.parse` parameter of the
transport embedding in witnesses. -/
mutual

def parseVal : Nat → List Char → Option (Json × List Char)
  | 0, _ => none
  | _ + 1, [] => none
  | fuel + 1, c :: cs =>
    if c = 'n' then
      match cs with
      | 'u' :: 'l' :: 'l' :: r => some (.null, r)
      | _ => none
    else if c = 't' then
      match cs with
      | 'r' :: 'u' :: 'e' :: r => some (.bool true, r)
      | _ => none
    else if c = 'f' then
      match cs with
      | 'a' :: 'l' :: 's' :: 'e' :: r => some (.bool false, r)
      | _ => none
    else if c = '"' then
      match strChars cs with
      | some (s, r) => some (.str (String.mk s), r)
      | none => none
    else if c = '-' then
      match cs with
      | d :: ds =>
        if d.isDigit then
          match digitsAux ds (d.toNat - 48) with
          | (n, r) => some (.num (-(n : Int)), r)
        else none
      | [] => none
    else if c.isDigit then
      match digitsAux cs (c.toNat - 48) with
      | (n, r) => some (.num (n : Int), r)
    else if c = '[' then
      match cs with
      | ']' :: r => some (.arr [], r)
      | _ =>
        match parseItems fuel cs with
        | some (xs, r) => some (.arr xs, r)
        | none => none
    else if c = '\x7b' then
      match cs with
      | '\x7d' :: r => some (.obj [], r)
      | _ =>
        match parseFields fuel cs with
        | some (fs, r) => some (.obj fs, r)
        | none => none
    else none

def parseItems : Nat → List Char → Option (List Json × List Char)
  | 0, _ => none
  | fuel + 1, cs =>
    match parseVal fuel cs with
    | some (v, r) =>
      match r with
      | ',' :: r2 =>
        match parseItems fuel r2 with
        | some (xs, r3) => some (v :: xs, r3)
        | none => none
      | ']' :: r2 => some ([v], r2)
      | _ => none
    | none => none

def parseFields : Nat → List Char → Option (List (String × Json) × List Char)
  | 0, _ => none
  | fuel + 1, cs =>
    match cs with
    | '"' :: cs2 =>
      match strChars cs2 with
      | some (k, r) =>
        match r with
        | ':' :: r2 =>
          match parseVal fuel r2 with
          | some (v, r3) =>
            match r3 with
            | ',' :: r4 =>
              match parseFields fuel r4 with
              | some (fs, r5) => some ((String.mk k, v) :: fs, r5)
              | none => none
            | '\x7d' :: r4 => some ([(String.mk k, v)], r4)
            | _ => none
          | none => none
        | _ => none
      | none => none
    | _ => none

end

def decode (s : String) : Option Json :=
  match parseVal (s.length + 2) s.data with
  | some (j, []) => some j
  | _ => none

lemma deserializeMessage_frame (parse : String → Option Json)
    (s h p mta c : String) (bufs : List String)
    {H P Mta C : Json}
    (neh : h ≠ "") (nep : p ≠ "") (nem : mta ≠ "") (nec : c ≠ "")
    (jh : parse h = some H) (jp : parse p = some P)
    (jm : parse mta = some Mta) (jc : parse c = some C) :
    deserializeMessage parse ("<IDS|MSG>" :: s :: h :: p :: mta :: c :: bufs)
      = .ok ⟨H, P, Mta, C, bufs⟩ := by
  have hidx : findDelimiterIdx ("<IDS|MSG>" :: s :: h :: p :: mta :: c :: bufs)
      = 0 := by
    simp [findDelimiterIdx]
  simp only [deserializeMessage, hidx, List.length_cons]
  rw [if_neg (by omega)]
  have g2 : bufferStrOr ("<IDS|MSG>" :: s :: h :: p :: mta :: c :: bufs)
      (0 + 1 + 1) = h := by
    simp [bufferStrOr, if_neg neh]
  have g3 : bufferStrOr ("<IDS|MSG>" :: s :: h :: p :: mta :: c :: bufs)
      (0 + 1 + 2) = p := by
    simp [bufferStrOr, if_neg nep]
  have g4 : bufferStrOr ("<IDS|MSG>" :: s :: h :: p :: mta :: c :: bufs)
      (0 + 1 + 3) = mta := by
    simp [bufferStrOr, if_neg nem]
  have g5 : bufferStrOr ("<IDS|MSG>" :: s :: h :: p :: mta :: c :: bufs)
      (0 + 1 + 4) = c := by
    simp [bufferStrOr, if_neg nec]
  rw [g2, g3, g4, g5, jh, jp, jm, jc]
  simp

/-- C3: round-trip of the wire framing.  For every message whose
parent_header, metadata and content are truthy (the typed interface always
passes objects there), and any `JSON` codec that round-trips on the four
payloads and prints them non-empty, `deserializeMessage` applied to the
frame produced by `serializeMessage` recovers the header, parent_header,
metadata, content (and buffers) of the input message, and the signature
buffer of the frame (index 1) is exactly the HMAC-SHA256 hex digest of the
concatenated four JSON buffers under the session key. -/
theorem c3_serialize_deserialize_roundtrip
    (stringify : Json → String) (parse : String → Option Json)
    (hmacHex : String → String → String) (key : String) (m : JupyterMessage)
    (hph : jsTruthy m.parent_header = true)
    (hmd : jsTruthy m.metadata = true)
    (hct : jsTruthy m.content = true)
    (rth : parse (stringify m.header) = some m.header)
    (rtp : parse (stringify m.parent_header) = some m.parent_header)
    (rtm : parse (stringify m.metadata) = some m.metadata)
    (rtc : parse (stringify m.content) = some m.content)
    (neh : stringify m.header ≠ "")
    (nep : stringify m.parent_header ≠ "")
    (nem : stringify m.metadata ≠ "")
    (nec : stringify m.content ≠ "") :
    deserializeMessage parse (serializeMessage stringify hmacHex key m) = .ok m
    ∧ (serializeMessage stringify hmacHex key m).get? 1
        = some (hmacHex key (stringify m.header ++ stringify m.parent_header
            ++ stringify m.metadata ++ stringify m.content)) := by
  have e1 : orEmptyObj m.parent_header = m.parent_header := by
    simp [orEmptyObj, hph]
  have e2 : orEmptyObj m.metadata = m.metadata := by simp [orEmptyObj, hmd]
  have e3 : orEmptyObj m.content = m.content := by simp [orEmptyObj, hct]
  constructor
  · simp only [serializeMessage, e1, e2, e3]
    exact deserializeMessage_frame parse _ _ _ _ _ m.buffers neh nep nem nec
      rth rtp rtm rtc
  · simp [serializeMessage, e1, e2, e3]

def msgEx : JupyterMessage :=
  ⟨Json.obj [("msg_id", Json.str "abc"), ("msg_type", Json.str "execute_reply")],
   Json.obj [("msg_id", Json.str "p1")],
   Json.obj [],
   Json.obj [("status", Json.str "ok"), ("execution_count", Json.num 3)],
   ["bin1"]⟩

theorem c3_serialize_deserialize_roundtrip_witness :
    deserializeMessage decode
        (serializeMessage encode (fun k d => k ++ "|" ++ d) "sessionkey" msgEx)
      = .ok msgEx
    ∧ (serializeMessage encode (fun k d => k ++ "|" ++ d) "sessionkey" msgEx).get? 1
        = some ((fun k d => k ++ "|" ++ d) "sessionkey"
            (encode msgEx.header ++ encode msgEx.parent_header
              ++ encode msgEx.metadata ++ encode msgEx.content)) :=
  c3_serialize_deserialize_roundtrip encode decode (fun k d => k ++ "|" ++ d)
    "sessionkey" msgEx rfl rfl rfl rfl rfl rfl rfl (by decide) (by decide)
    (by decide) (by decide)

/-- C4 (counterexample): a frame that has the delimiter, the signature and
the header, parent_header and metadata buffers but lacks the content
buffer is NOT a framing error: the bounds check `partIndex + 4 >
msgParts.length` passes (5 = 5), the missing content buffer falls back to
an empty JSON object, and the frame is delivered with `content = obj []`
instead of being dropped. -/
theorem c4_missing_content_accepted :
    deserializeMessage decode
        ["<IDS|MSG>", "sig", "\x7b\x7d", "\x7b\x7d", "\x7b\x7d"]
      = .ok ⟨Json.obj [], Json.obj [], Json.obj [], Json.obj [], []⟩
    ∧ ∀ e, deserializeMessage decode
        ["<IDS|MSG>", "sig", "\x7b\x7d", "\x7b\x7d", "\x7b\x7d"] ≠ .error e := by
  refine ⟨rfl, fun e h => ?_⟩
  rw [show deserializeMessage decode
        ["<IDS|MSG>", "sig", "\x7b\x7d", "\x7b\x7d", "\x7b\x7d"]
      = .ok ⟨Json.obj [], Json.obj [], Json.obj [], Json.obj [], []⟩ from rfl] at h
  exact Except.noConfusion h

lemma findDelimiterIdx_of_absent :
    ∀ parts : List String, (∀ s ∈ parts, s ≠ "<IDS|MSG>") →
      findDelimiterIdx parts = parts.length := by
  intro parts
  induction parts with
  | nil => intro _; rfl
  | cons p rest ih =>
    intro h
    simp only [findDelimiterIdx, if_neg (h p (by simp)), List.length_cons]
    rw [ih (fun s hs => h s (by simp [hs]))]

lemma receiveMessages_append (parse : String → Option Json)
    (xs ys : List (List String)) :
    receiveMessages parse (xs ++ ys)
      = ((receiveMessages parse xs).1 ++ (receiveMessages parse ys).1,
         (receiveMessages parse xs).2 + (receiveMessages parse ys).2) := by
  induction xs with
  | nil => simp [receiveMessages]
  | cons f rest ih =>
    have h1 : (receiveMessages parse (rest ++ ys)).1
        = (receiveMessages parse rest).1 ++ (receiveMessages parse ys).1 := by
      rw [ih]
    have h2 : (receiveMessages parse (rest ++ ys)).2
        = (receiveMessages parse rest).2 + (receiveMessages parse ys).2 := by
      rw [ih]
    simp only [List.cons_append, receiveMessages]
    cases h : deserializeMessage parse f with
    | ok m =>
      simp only [h]
      exact Prod.ext (by simp [h1]) (by simp [h2])
    | error e =>
      simp only [h]
      exact Prod.ext (by simp [h1]) (by simp [h2]; omega)

/-- C4 (amended): a frame with no `<IDS|MSG>` delimiter, or with fewer
than four buffers after the delimiter (signature plus at least three of
the JSON buffers), is a framing error (`Invalid message format`); the
receive loop logs it, drops the frame, and keeps servicing the remaining
frames, so the error is not fatal to the transport.  A frame missing
exactly the content buffer, however, is accepted with content defaulted to
an empty object (see `c4_missing_content_accepted`). -/
theorem c4_framing_error_dropped (parse : String → Option Json)
    (bad : List String) (pre post : List (List String))
    (hbad : (∀ s ∈ bad, s ≠ "<IDS|MSG>")
      ∨ bad.length < findDelimiterIdx bad + 5) :
    deserializeMessage parse bad = .error "Invalid message format"
    ∧ (receiveMessages parse (pre ++ bad :: post)).1
        = (receiveMessages parse pre).1 ++ (receiveMessages parse post).1
    ∧ (receiveMessages parse (pre ++ bad :: post)).2
        = (receiveMessages parse pre).2 + (receiveMessages parse post).2 + 1 := by
  have hshort : bad.length < findDelimiterIdx bad + 5 := by
    rcases hbad with h | h
    · rw [findDelimiterIdx_of_absent bad h]; omega
    · exact h
  have herr : deserializeMessage parse bad = .error "Invalid message format" := by
    simp only [deserializeMessage]
    rw [if_pos (by omega)]
  have hstep : receiveMessages parse (bad :: post)
      = ((receiveMessages parse post).1, (receiveMessages parse post).2 + 1) := by
    simp [receiveMessages, herr]
  refine ⟨herr, ?_, ?_⟩
  · rw [receiveMessages_append parse pre (bad :: post), hstep]
  · rw [receiveMessages_append parse pre (bad :: post), hstep]
    simp only []
    omega

theorem c4_framing_error_dropped_witness :
    deserializeMessage decode ["junk"] = .error "Invalid message format"
    ∧ (receiveMessages decode
        ([["<IDS|MSG>", "sig", "\x7b\x7d", "\x7b\x7d", "\x7b\x7d", "\x7b\x7d"]]
          ++ ["junk"]
          :: [["<IDS|MSG>", "sig", "\x7b\x7d", "\x7b\x7d", "\x7b\x7d", "null"]])).1
        = (receiveMessages decode
            [["<IDS|MSG>", "sig", "\x7b\x7d", "\x7b\x7d", "\x7b\x7d", "\x7b\x7d"]]).1
          ++ (receiveMessages decode
            [["<IDS|MSG>", "sig", "\x7b\x7d", "\x7b\x7d", "\x7b\x7d", "null"]]).1
    ∧ (receiveMessages decode
        ([["<IDS|MSG>", "sig", "\x7b\x7d", "\x7b\x7d", "\x7b\x7d", "\x7b\x7d"]]
          ++ ["junk"]
          :: [["<IDS|MSG>", "sig", "\x7b\x7d", "\x7b\x7d", "\x7b\x7d", "null"]])).2
        = (receiveMessages decode
            [["<IDS|MSG>", "sig", "\x7b\x7d", "\x7b\x7d", "\x7b\x7d", "\x7b\x7d"]]).2
          + (receiveMessages decode
            [["<IDS|MSG>", "sig", "\x7b\x7d", "\x7b\x7d", "\x7b\x7d", "null"]]).2
          + 1 :=
  c4_framing_error_dropped decode ["junk"]
    [["<IDS|MSG>", "sig", "\x7b\x7d", "\x7b\x7d", "\x7b\x7d", "\x7b\x7d"]]
    [["<IDS|MSG>", "sig", "\x7b\x7d", "\x7b\x7d", "\x7b\x7d", "null"]]
    (Or.inl (by decide))

end Wire

namespace Future

/-- The content payload of an inbound kernel message, restricted to the
fields the correlator reads.  `none` models an absent (`undefined`) or
`null` JavaScript field; MIME payload values are modelled as strings. -/
structure MsgContent where
  status : String
  execution_count : Option Int
  name : String
  text : String
  data : Option (List (String × String))
  traceback : Option (List String)
  evalue : String
deriving DecidableEq

/-- An inbound kernel message as seen by `ExecutionFuture`: the channel
tag added by the transport, `header.msg_type`, `parent_header.msg_id` and
the content. -/
structure InMessage where
  channel : String
  msg_type : String
  parent_msg_id : String
  content : MsgContent
deriving DecidableEq

/-- The accumulated `ExecutionResult` (src/types/execution.ts): optional
output/error/executionCount/mimeData plus the terminal status string. -/
structure ExecResult where
  output : Option String
  error : Option String
  executionCount : Option Int
  mimeData : Option (List (String × String))
  status : String
deriving DecidableEq

/-- JavaScript truthiness of a possibly-absent string value. -/
def strTruthy : Option String → Bool
  | none => false
  | some s => !(s == "")

def assocGet : List (String × String) → String → Option String
  | [], _ => none
  | (k, v) :: rest, key => if k = key then some v else assocGet rest key

def assocSet : List (String × String) → String → String → List (String × String)
  | [], k, v => [(k, v)]
  | (k', v') :: rest, k, v =>
    if k' = k then (k, v) :: rest else (k', v') :: assocSet rest k v

/-- `Object.assign(target, data)` on string-valued records: the entries of
`data` are written into `target` in order, overwriting existing keys and
appending new ones. -/
def objectAssign (target data : List (String × String)) :
    List (String × String) :=
  data.foldl (fun acc kv => assocSet acc kv.1 kv.2) target

/-- `data["image/png"] || data["image/jpeg"] || data["image/svg+xml"] ||
data["text/html"]` from `handleIOPubOutput`, as a truthiness test. -/
def hasRichOutput (data : List (String × String)) : Bool :=
  strTruthy (assocGet data "image/png") || strTruthy (assocGet data "image/jpeg")
    || strTruthy (assocGet data "image/svg+xml")
    || strTruthy (assocGet data "text/html")

/-- The accumulation switch of `ExecutionFuture.handleIOPubOutput`
(src/kernel/direct/execution-future.ts, lines 177-228), acting on the
accumulated result value; the returned flag is `shouldNotify`.  The same
accumulation rules appear in `KernelManager.handleDataMessage`
(src/unnamed/part_006, lines 83-106). -/
def accumulateOutput (r : ExecResult) (msg : InMessage) : ExecResult × Bool :=
  if msg.msg_type = "stream" then
    if msg.content.name = "stdout" then
      ({ r with output := some (r.output.getD "" ++ msg.content.text) }, true)
    else if msg.content.name = "stderr" then
      ({ r with error := some (r.error.getD "" ++ msg.content.text) }, true)
    else (r, false)
  else if msg.msg_type = "display_data" ∨ msg.msg_type = "execute_result" then
    match msg.content.data with
    | some data =>
      let merged := objectAssign (r.mimeData.getD []) data
      let r1 := { r with mimeData := some merged }
      let r2 :=
        if strTruthy (assocGet data "text/plain") && !hasRichOutput data then
          { r1 with output := some (r1.output.getD ""
              ++ (assocGet data "text/plain").getD "") }
        else r1
      (r2, true)
    | none => (r, false)
  else if msg.msg_type = "error" then
    let joined :=
      match msg.content.traceback with
      | some ts => String.intercalate "\n" ts
      | none => ""
    let errorText :=
      if joined ≠ "" then joined
      else if msg.content.evalue ≠ "" then msg.content.evalue
      else "Unknown error"
    ({ r with error := some (r.error.getD "" ++ errorText) }, true)
  else (r, false)

/-- The state of the `done` promise.  `resolve` is captured in the
constructor (src/kernel/direct/execution-future.ts, lines 58-71); in a JS
promise only the first settlement counts. -/
inductive PromiseState where
  | pending : PromiseState
  | resolved : InMessage → PromiseState
  | rejected : PromiseState
deriving DecidableEq

def resolveP : PromiseState → InMessage → PromiseState
  | .pending, m => .resolved m
  | s, _ => s

/-- The observable state of one `ExecutionFuture`: the request's generated
message id, the accumulated `_result`, the `done` promise, and the
snapshots passed to stream listeners so far. -/
structure FutureState where
  msgId : String
  result : ExecResult
  promise : PromiseState
  emitted : List ExecResult
deriving DecidableEq

def initFuture (msgId : String) : FutureState :=
  ⟨msgId, ⟨none, none, none, none, "ok"⟩, .pending, []⟩

/-- `ExecutionFuture.handleIOPubOutput`: accumulate, then, when
`shouldNotify`, emit a copy of the current result to the stream
listeners. -/
def handleIOPubOutput (st : FutureState) (msg : InMessage) : FutureState :=
  match accumulateOutput st.result msg with
  | (r, shouldNotify) =>
    if shouldNotify then { st with result := r, emitted := st.emitted ++ [r] }
    else { st with result := r }

/-- `ExecutionFuture.handleMessage` (src/kernel/direct/execution-future.ts,
lines 144-171): an `execute_reply` records the execution count when
present, overwrites the status with the reply's status (whatever it is —
ok, error or aborted) and resolves the `done` promise; an iopub message is
accumulated; nothing ever rejects the promise (the captured reject is
never invoked anywhere in the source). -/
def handleMessage (st : FutureState) (msg : InMessage) : FutureState :=
  if msg.msg_type = "execute_reply" then
    let r1 :=
      (match msg.content.execution_count with
      | some n => { st.result with executionCount := some n }
      | none => st.result)
    let r2 := { r1 with status := msg.content.status }
    { st with result := r2, promise := resolveP st.promise msg }
  else if msg.channel = "iopub" then handleIOPubOutput st msg
  else st

/-- The parent-id dispatch guard, `message.parent_header?.msg_id ===
this.msg.header.msg_id` (src/unnamed/part_004, lines 58-77; also the
documented calling contract of `handleMessage`): only messages whose
parent id matches the request reach the future. -/
def deliver (st : FutureState) (msg : InMessage) : FutureState :=
  if msg.parent_msg_id = st.msgId then handleMessage st msg else st

def deliverAll (st : FutureState) (msgs : List InMessage) : FutureState :=
  msgs.foldl deliver st

/-- The messages that settle the future: matching parent id and message
type `execute_reply`, with no condition on the reply's status. -/
def isReplyFor (msgId : String) (m : InMessage) : Bool :=
  m.parent_msg_id == msgId && m.msg_type == "execute_reply"

lemma handleIOPubOutput_msgId (st : FutureState) (msg : InMessage) :
    (handleIOPubOutput st msg).msgId = st.msgId := by
  rcases h : accumulateOutput st.result msg with ⟨r, b⟩
  cases b <;> simp [handleIOPubOutput, h]

lemma handleIOPubOutput_promise (st : FutureState) (msg : InMessage) :
    (handleIOPubOutput st msg).promise = st.promise := by
  rcases h : accumulateOutput st.result msg with ⟨r, b⟩
  cases b <;> simp [handleIOPubOutput, h]

lemma deliver_msgId (st : FutureState) (msg : InMessage) :
    (deliver st msg).msgId = st.msgId := by
  unfold deliver handleMessage
  by_cases hp : msg.parent_msg_id = st.msgId <;>
    by_cases ht : msg.msg_type = "execute_reply" <;>
    by_cases hc : msg.channel = "iopub" <;>
    simp [hp, ht, hc, handleIOPubOutput_msgId]

lemma deliver_promise (st : FutureState) (msg : InMessage) :
    (deliver st msg).promise
      = if isReplyFor st.msgId msg then resolveP st.promise msg
        else st.promise := by
  unfold deliver handleMessage isReplyFor
  by_cases hp : msg.parent_msg_id = st.msgId <;>
    by_cases ht : msg.msg_type = "execute_reply" <;>
    by_cases hc : msg.channel = "iopub" <;>
    simp [hp, ht, hc, handleIOPubOutput_promise]

lemma deliverAll_cons (st : FutureState) (x : InMessage) (xs : List InMessage) :
    deliverAll st (x :: xs) = deliverAll (deliver st x) xs := rfl

lemma resolveP_resolved (m x : InMessage) :
    resolveP (.resolved m) x = .resolved m := rfl

lemma deliverAll_resolved (m : InMessage) :
    ∀ (msgs : List InMessage) (st : FutureState),
      st.promise = .resolved m → (deliverAll st msgs).promise = .resolved m := by
  intro msgs
  induction msgs with
  | nil => intro st h; exact h
  | cons x xs ih =>
    intro st h
    rw [deliverAll_cons]
    refine ih _ ?_
    rw [deliver_promise, h]
    cases isReplyFor st.msgId x <;> simp [resolveP]

lemma resolveP_ne_rejected (s : PromiseState) (m : InMessage)
    (h : s ≠ .rejected) : resolveP s m ≠ .rejected := by
  cases s <;> simp [resolveP] at h ⊢

lemma deliverAll_ne_rejected :
    ∀ (msgs : List InMessage) (st : FutureState),
      st.promise ≠ .rejected → (deliverAll st msgs).promise ≠ .rejected := by
  intro msgs
  induction msgs with
  | nil => intro st h; exact h
  | cons x xs ih =>
    intro st h
    rw [deliverAll_cons]
    refine ih _ ?_
    rw [deliver_promise]
    cases isReplyFor st.msgId x <;> simp
    · exact h
    · exact resolveP_ne_rejected st.promise x h

lemma c5_aux : ∀ (msgs : List InMessage) (st : FutureState),
    st.promise = .pending →
    (match msgs.find? (isReplyFor st.msgId) with
     | some m => (deliverAll st msgs).promise = .resolved m
     | none => (deliverAll st msgs).promise = .pending) := by
  intro msgs
  induction msgs with
  | nil => intro st h; simpa [deliverAll, List.find?]
  | cons x xs ih =>
    intro st h
    by_cases hx : isReplyFor st.msgId x
    · rw [List.find?_cons_of_pos _ hx, deliverAll_cons]
      refine deliverAll_resolved x xs _ ?_
      rw [deliver_promise, if_pos hx, h]
      rfl
    · rw [List.find?_cons_of_neg _ (by simpa using hx), deliverAll_cons]
      have hpm : (deliver st x).promise = .pending := by
        rw [deliver_promise, if_neg hx, h]
      have hid : (deliver st x).msgId = st.msgId := deliver_msgId st x
      have := ih (deliver st x) hpm
      rw [hid] at this
      exact this

/-- C5: for every request id and every sequence of inbound messages, the
`done` promise of the `ExecutionFuture` is never rejected by message
handling (the captured reject is never invoked; only a transport-level
failure could reject it), and it resolves exactly at the first
`execute_reply` whose parent id matches the request's message id —
whatever that reply's status (`ok`, `error` and `aborted` alike) — staying
pending when no such reply is observed. -/
theorem c5_done_resolves_once_on_matching_reply (msgId : String)
    (msgs : List InMessage) :
    (deliverAll (initFuture msgId) msgs).promise ≠ PromiseState.rejected
    ∧ (match msgs.find? (isReplyFor msgId) with
       | some m => (deliverAll (initFuture msgId) msgs).promise
           = PromiseState.resolved m
       | none => (deliverAll (initFuture msgId) msgs).promise
           = PromiseState.pending) :=
  ⟨deliverAll_ne_rejected msgs (initFuture msgId) (by simp [initFuture]),
   c5_aux msgs (initFuture msgId) rfl⟩

/-- C6: correlator isolation.  For two pending futures with distinct
generated ids, a message whose parent id matches the first is handled by
the first and leaves the second completely unchanged (neither its promise
nor its accumulated result), and a message matching neither id leaves
both unchanged. -/
theorem c6_correlator_isolation (A B : FutureState) (hAB : A.msgId ≠ B.msgId)
    (msg : InMessage) :
    (msg.parent_msg_id = A.msgId →
      deliver A msg = handleMessage A msg ∧ deliver B msg = B)
    ∧ (msg.parent_msg_id ≠ A.msgId → msg.parent_msg_id ≠ B.msgId →
      deliver A msg = A ∧ deliver B msg = B) := by
  constructor
  · intro h
    refine ⟨by simp [deliver, h], ?_⟩
    have hB : msg.parent_msg_id ≠ B.msgId := by rw [h]; exact hAB
    simp [deliver, hB]
  · intro h1 h2
    exact ⟨by simp [deliver, h1], by simp [deliver, h2]⟩

def msgReplyA : InMessage :=
  ⟨"shell", "execute_reply", "id-a", ⟨"ok", some 1, "", "", none, none, ""⟩⟩

theorem c6_correlator_isolation_witness :
    deliver (initFuture "id-a") msgReplyA
        = handleMessage (initFuture "id-a") msgReplyA
    ∧ deliver (initFuture "id-b") msgReplyA = initFuture "id-b" :=
  (c6_correlator_isolation (initFuture "id-a") (initFuture "id-b")
    (by decide) msgReplyA).1 rfl

lemma assocGet_assocSet_self (l : List (String × String)) (k v : String) :
    assocGet (assocSet l k v) k = some v := by
  induction l with
  | nil => simp [assocSet, assocGet]
  | cons kv rest ih =>
    rcases kv with ⟨k', v'⟩
    by_cases h : k' = k <;> simp [assocSet, assocGet, h, ih]

lemma assocGet_assocSet_other (l : List (String × String)) (k' k v : String)
    (h : k' ≠ k) : assocGet (assocSet l k' v) k = assocGet l k := by
  induction l with
  | nil => simp [assocSet, assocGet, h]
  | cons kv rest ih =>
    rcases kv with ⟨a, b⟩
    by_cases ha : a = k'
    · subst ha
      simp [assocSet, assocGet, h]
    · by_cases hak : a = k <;> simp [assocSet, assocGet, ha, hak, ih, Ne.symm h]

lemma assocGet_objectAssign_not_mem :
    ∀ (d t : List (String × String)) (k : String),
      (∀ kv ∈ d, kv.1 ≠ k) →
      assocGet (objectAssign t d) k = assocGet t k := by
  intro d
  induction d with
  | nil => intro t k _; rfl
  | cons kv rest ih =>
    intro t k h
    have step : objectAssign t (kv :: rest)
        = objectAssign (assocSet t kv.1 kv.2) rest := rfl
    rw [step, ih _ k (fun x hx => h x (by simp [hx])),
      assocGet_assocSet_other t kv.1 k kv.2 (h kv (by simp))]

lemma assocGet_objectAssign_mem :
    ∀ (d t : List (String × String)) (k v : String),
      (d.map Prod.fst).Nodup → assocGet d k = some v →
      assocGet (objectAssign t d) k = some v := by
  intro d
  induction d with
  | nil => intro t k v _ h; simp [assocGet] at h
  | cons kv rest ih =>
    intro t k v hnd h
    rcases kv with ⟨k1, v1⟩
    rw [show objectAssign t ((k1, v1) :: rest)
        = objectAssign (assocSet t k1 v1) rest from rfl]
    simp only [List.map_cons, List.nodup_cons] at hnd
    by_cases hk : k1 = k
    · subst hk
      have hv : v1 = v := by simpa [assocGet] using h
      subst hv
      rw [assocGet_objectAssign_not_mem rest _ k1 ?_,
        assocGet_assocSet_self]
      intro x hx hcon
      exact hnd.1 (hcon ▸ List.mem_map_of_mem Prod.fst hx)
    · have h' : assocGet rest k = some v := by simpa [assocGet, hk] using h
      exact ih _ k v hnd.2 h'

/-- C7 (counterexample): the rich-output check is a JavaScript truthiness
test, so a payload whose data map does contain an `image/png` entry —
with the empty string as value — together with `text/plain` still appends
the plain-text entry to `output`, contradicting the claim read over map
membership. -/
theorem c7_empty_rich_counterexample :
    assocGet [("text/plain", "t"), ("image/png", "")] "image/png" = some ""
    ∧ (handleMessage (initFuture "req1")
        ⟨"iopub", "display_data", "req1",
          ⟨"", none, "", "", some [("text/plain", "t"), ("image/png", "")],
            none, ""⟩⟩).result.output = some "t" :=
  ⟨rfl, rfl⟩

/-- C7 (amended): for a `display_data` or `execute_result` payload with a
data map (keys distinct), (1) whenever a richer representation with a
non-empty (truthy) value is present, the accumulated `output` text is left
unchanged — in particular `text/plain` is not appended; (2) every entry of
the data map, `text/plain` included, is merged into the structured
`mimeData` map; (3) when no truthy richer representation is present and
the `text/plain` entry is truthy, it is appended to `output`.  The source
tests truthiness, not membership: entries whose value is the empty string
count as absent (see `c7_empty_rich_counterexample`). -/
theorem c7_rich_suppresses_text_plain (st : FutureState) (msg : InMessage)
    (data : List (String × String))
    (hty : msg.msg_type = "display_data" ∨ msg.msg_type = "execute_result")
    (hdata : msg.content.data = some data)
    (hnd : (data.map Prod.fst).Nodup) :
    (hasRichOutput data = true →
      (handleIOPubOutput st msg).result.output = st.result.output)
    ∧ (∀ k v, assocGet data k = some v →
        assocGet ((handleIOPubOutput st msg).result.mimeData.getD []) k
          = some v)
    ∧ (hasRichOutput data = false →
        strTruthy (assocGet data "text/plain") = true →
        (handleIOPubOutput st msg).result.output
          = some (st.result.output.getD ""
              ++ (assocGet data "text/plain").getD "")) := by
  have hstep : accumulateOutput st.result msg
      = (if strTruthy (assocGet data "text/plain") && !hasRichOutput data then
          ({ st.result with
              mimeData := some (objectAssign (st.result.mimeData.getD []) data),
              output := some (st.result.output.getD ""
                ++ (assocGet data "text/plain").getD "") }, true)
        else
          ({ st.result with
              mimeData :=
                some (objectAssign (st.result.mimeData.getD []) data) },
            true)) := by
    rcases hty with h | h <;>
      simp [accumulateOutput, h, hdata] <;>
      split <;> rfl
  refine ⟨?_, ?_, ?_⟩
  · intro hrich
    simp [handleIOPubOutput, hstep, hrich]
  · intro k v hkv
    by_cases hc : strTruthy (assocGet data "text/plain")
        && !hasRichOutput data <;>
      simp [handleIOPubOutput, hstep, hc] <;>
      exact assocGet_objectAssign_mem data _ k v hnd hkv
  · intro hrich htp
    simp [handleIOPubOutput, hstep, hrich, htp]

theorem c7_rich_suppresses_text_plain_witness :
    (hasRichOutput [("text/plain", "42"), ("image/png", "AAA")] = true →
      (handleIOPubOutput (initFuture "x")
        ⟨"iopub", "display_data", "x",
          ⟨"", none, "", "", some [("text/plain", "42"), ("image/png", "AAA")],
            none, ""⟩⟩).result.output = (initFuture "x").result.output)
    ∧ (∀ k v,
        assocGet [("text/plain", "42"), ("image/png", "AAA")] k = some v →
        assocGet ((handleIOPubOutput (initFuture "x")
          ⟨"iopub", "display_data", "x",
            ⟨"", none, "", "",
              some [("text/plain", "42"), ("image/png", "AAA")], none, ""⟩⟩
          ).result.mimeData.getD []) k = some v)
    ∧ (hasRichOutput [("text/plain", "42"), ("image/png", "AAA")] = false →
        strTruthy (assocGet [("text/plain", "42"), ("image/png", "AAA")]
          "text/plain") = true →
        (handleIOPubOutput (initFuture "x")
          ⟨"iopub", "display_data", "x",
            ⟨"", none, "", "",
              some [("text/plain", "42"), ("image/png", "AAA")], none, ""⟩⟩
          ).result.output
          = some ((initFuture "x").result.output.getD ""
              ++ (assocGet [("text/plain", "42"), ("image/png", "AAA")]
                  "text/plain").getD "")) :=
  c7_rich_suppresses_text_plain (initFuture "x")
    ⟨"iopub", "display_data", "x",
      ⟨"", none, "", "", some [("text/plain", "42"), ("image/png", "AAA")],
        none, ""⟩⟩
    [("text/plain", "42"), ("image/png", "AAA")]
    (Or.inl rfl) rfl (by decide)

end Future

namespace Conn

/-- An outbound Jupyter message, reduced to the fields the send path
inspects (`header.msg_type`) plus its generated id. -/
structure OutMessage where
  msg_type : String
  msg_id : String
deriving DecidableEq

/-- `getChannelForMessageType` (src/types/execution.ts, lines 392-404):
interrupt and shutdown requests go to the control channel, every other
message type — including the default case — to the shell channel. -/
def getChannelForMessageType : String → String
  | "interrupt_request" => "control"
  | "shutdown_request" => "control"
  | _ => "shell"

/-- The observable state of a `RawSocket`: connection flag, which ZMQ
sockets exist, the in-memory queue of messages sent before the transport
connected, the messages sent on each channel so far, and the number of
onError events raised. -/
structure RawSocketState where
  isConnected : Bool
  hasShell : Bool
  hasControl : Bool
  pendingMessages : List OutMessage
  sentShell : List OutMessage
  sentControl : List OutMessage
  errorEvents : Nat
deriving DecidableEq

/-- `RawSocket.send` (src/types/execution.ts, lines 482-509): when the
transport is not connected, the message is pushed onto `pendingMessages`
and the call returns silently; otherwise the message is serialized and
sent on the channel chosen by `getChannelForMessageType`; a missing socket
raises the onError handler (caught inside `send`), not an exception to the
caller. -/
def send (st : RawSocketState) (msg : OutMessage) : RawSocketState :=
  if !st.isConnected then
    { st with pendingMessages := st.pendingMessages ++ [msg] }
  else if getChannelForMessageType msg.msg_type = "control" then
    if st.hasControl then { st with sentControl := st.sentControl ++ [msg] }
    else { st with errorEvents := st.errorEvents + 1 }
  else
    if st.hasShell then { st with sentShell := st.sentShell ++ [msg] }
    else { st with errorEvents := st.errorEvents + 1 }

/-- The slice of `DirectKernelConnection` state that `interrupt` reads. -/
structure ConnState where
  isDisposed : Bool
  rawSocket : Option RawSocketState
deriving DecidableEq

/-- `DirectKernelConnection.interrupt`
(src/kernel/direct/direct-kernel-connection.ts, lines 323-349): throws
when the connection is disposed; otherwise builds an `interrupt_request`
message (with a fresh uuid `msgId`) and, when a RawSocket exists, hands it
to `RawSocket.send`.  There is no connection check in `interrupt` itself. -/
def interrupt (conn : ConnState) (msgId : String) : Except String ConnState :=
  if conn.isDisposed then .error "Kernel connection is disposed"
  else
    match conn.rawSocket with
    | some sock =>
        .ok { conn with
          rawSocket := some (send sock ⟨"interrupt_request", msgId⟩) }
    | none => .ok conn

/-- C8 (counterexample): on a connection that is not disposed but whose
transport is not connected, `interrupt()` does not fail at all — no
NotConnected error exists in the source — and the interrupt request is
silently appended to the transport's `pendingMessages` queue, to be
flushed whenever the socket connects. -/
theorem c8_interrupt_not_connected_queues :
    interrupt ⟨false, some ⟨false, true, true, [], [], [], 0⟩⟩ "m1"
      = .ok ⟨false, some
          ⟨false, true, true, [⟨"interrupt_request", "m1"⟩], [], [], 0⟩⟩
    ∧ ∀ e, interrupt ⟨false, some ⟨false, true, true, [], [], [], 0⟩⟩ "m1"
        ≠ .error e := by
  refine ⟨rfl, fun e h => ?_⟩
  rw [show interrupt ⟨false, some ⟨false, true, true, [], [], [], 0⟩⟩ "m1"
      = .ok ⟨false, some
          ⟨false, true, true, [⟨"interrupt_request", "m1"⟩], [], [], 0⟩⟩
    from rfl] at h
  exact Except.noConfusion h

/-- C8 (amended): `interrupt()` builds an `interrupt_request`, which the
send path routes to the control channel; it fails only when the connection
is disposed.  When the transport is connected (and the control socket
exists) the request is sent on the control channel; when the transport is
not connected the request is silently queued in `pendingMessages` rather
than failing with a NotConnected error. -/
theorem c8_interrupt_routing (conn : ConnState) (sock : RawSocketState)
    (msgId : String) (hs : conn.rawSocket = some sock) :
    (conn.isDisposed = true →
      interrupt conn msgId = .error "Kernel connection is disposed")
    ∧ (conn.isDisposed = false → sock.isConnected = true →
        sock.hasControl = true →
        getChannelForMessageType "interrupt_request" = "control"
        ∧ interrupt conn msgId
          = .ok { conn with rawSocket := some { sock with
              sentControl := sock.sentControl ++ [⟨"interrupt_request", msgId⟩] } })
    ∧ (conn.isDisposed = false → sock.isConnected = false →
        interrupt conn msgId
          = .ok { conn with rawSocket := some { sock with
              pendingMessages :=
                sock.pendingMessages ++ [⟨"interrupt_request", msgId⟩] } }) := by
  refine ⟨fun hd => by simp [interrupt, hd], ?_, ?_⟩
  · intro hd hc hctl
    refine ⟨rfl, ?_⟩
    simp [interrupt, hd, hs, send, hc, hctl, getChannelForMessageType]
  · intro hd hc
    simp [interrupt, hd, hs, send, hc]

theorem c8_interrupt_routing_witness :
    interrupt ⟨false, some ⟨false, true, true, [], [], [], 0⟩⟩ "w1"
      = .ok ⟨false, some
          ⟨false, true, true, [⟨"interrupt_request", "w1"⟩], [], [], 0⟩⟩ := by
  have h := (c8_interrupt_routing
    ⟨false, some ⟨false, true, true, [], [], [], 0⟩⟩
    ⟨false, true, true, [], [], [], 0⟩ "w1" rfl).2.2 rfl rfl
  exact h

end Conn

namespace Provider

def alistGet {α : Type} : List (String × α) → String → Option α
  | [], _ => none
  | (k, v) :: rest, key => if k = key then some v else alistGet rest key

def alistSet {α : Type} : List (String × α) → String → α → List (String × α)
  | [], k, v => [(k, v)]
  | (k', v') :: rest, k, v =>
    if k' = k then (k, v) :: rest else (k', v') :: alistSet rest k v

def alistDelete {α : Type} : List (String × α) → String → List (String × α)
  | [], _ => []
  | (k', v') :: rest, k =>
    if k' = k then alistDelete rest k else (k', v') :: alistDelete rest k

/-- The connection descriptor written for the kernel process
(src/types/kernel.ts, `KernelConnectionInfo`). -/
structure KernelConnectionInfo where
  kernel_id : String
  kernel_name : String
  transport : String
  shell_port : Nat
  iopub_port : Nat
  control_port : Nat
  stdin_port : Nat
  hb_port : Nat
  ip : String
  key : String
  signature_scheme : String
deriving DecidableEq

/-- `DirectKernelMetadata` (src/types/kernel.ts): the process handle
(modelled by its pid), the descriptor file path and the interpreter path. -/
structure DirectKernelMetadata where
  pid : Nat
  connectionFilePath : String
  pythonPath : String
deriving DecidableEq

/-- The slice of a `DirectKernelConnection` that the provider and manager
observe: its kernel id and name (from the model) and its connection
info. -/
structure DirectKernelConnection where
  id : String
  name : String
  connectionInfo : KernelConnectionInfo
  clientId : String
deriving DecidableEq

/-- `DirectKernelProvider` state (src/kernel/direct/direct-kernel-provider.ts,
lines 30-37): the temp dir and the kernel-id → metadata map. -/
structure ProviderState where
  tempDir : String
  kernelMetadata : List (String × DirectKernelMetadata)
deriving DecidableEq

/-- The world the provider acts on: descriptor files on disk, the pids it
has killed, and the pids it has spawned, in order. -/
structure World where
  files : List (String × KernelConnectionInfo)
  killedPids : List Nat
  spawnedPids : List Nat
deriving DecidableEq

/-- The environment inputs consumed during one restart: the base port
returned by `findConsecutiveAvailablePorts(5)`, the fresh uuid key and
client id, the pid of the spawned process, and the outcomes of the
ipykernel check and the connection wait. -/
structure Env where
  basePort : Nat
  newKey : String
  newPid : Nat
  clientId : String
  ipykernelOk : Bool
  connected : Bool
deriving DecidableEq

/-- `path.join(this.tempDir, `kernel-S.json`)`. -/
def connectionFilePathFor (tempDir kernelId : String) : String :=
  tempDir ++ "/kernel-" ++ kernelId ++ ".json"

/-- The descriptor built by `generateConnectionInfo`
(src/kernel/direct/direct-kernel-provider.ts, lines 104-130): five
consecutive ports from the freshly allocated base, the same kernel id, a
fresh signing key. -/
def connInfoFor (env : Env) (kernelId : String) : KernelConnectionInfo :=
  ⟨kernelId, "protium-python", "tcp", env.basePort, env.basePort + 1,
   env.basePort + 2, env.basePort + 3, env.basePort + 4, "127.0.0.1",
   env.newKey, "hmac-sha256"⟩

/-- `generateConnectionInfo` also writes the descriptor file before
returning. -/
def generateConnectionInfo (env : Env) (w : World) (kernelId filePath : String) :
    KernelConnectionInfo × World :=
  (connInfoFor env kernelId,
   { w with files := alistSet w.files filePath (connInfoFor env kernelId) })

/-- `DirectKernelProvider.dispose` (lines 292-318): kill the process,
delete the descriptor file if it exists, drop the metadata entry;
a missing kernel id is a no-op. -/
def dispose (p : ProviderState) (w : World) (kernelId : String) :
    ProviderState × World :=
  match alistGet p.kernelMetadata kernelId with
  | none => (p, w)
  | some md =>
    ({ p with kernelMetadata := alistDelete p.kernelMetadata kernelId },
     { w with
        killedPids := w.killedPids ++ [md.pid]
        files := alistDelete w.files md.connectionFilePath })

/-- `launchKernelAndConnect` (lines 171-225): check ipykernel, launch the
process, store the fresh metadata under the same kernel id, build the
connection whose model id is the descriptor's kernel id, and wait for the
connection (a timeout throws). -/
def launchKernelAndConnect (env : Env) (p : ProviderState) (w : World)
    (kernelId pythonPath filePath : String) (ci : KernelConnectionInfo) :
    Except String (ProviderState × World × DirectKernelConnection) :=
  if !env.ipykernelOk then .error "ipykernel is not available"
  else
    let w1 := { w with spawnedPids := w.spawnedPids ++ [env.newPid] }
    let mdNew : DirectKernelMetadata := ⟨env.newPid, filePath, pythonPath⟩
    let p1 := { p with kernelMetadata := alistSet p.kernelMetadata kernelId mdNew }
    let conn : DirectKernelConnection :=
      ⟨ci.kernel_id, ci.kernel_name, ci, env.clientId⟩
    if env.connected then .ok (p1, w1, conn)
    else .error "Connection timeout after 5000ms"

/-- `DirectKernelProvider.restart` (lines 261-286): look up the stored
metadata (fail when absent), remember its python path, dispose the old
process and descriptor, regenerate descriptor and process under the SAME
kernel id. -/
def restart (env : Env) (p : ProviderState) (w : World) (kernelId : String) :
    Except String (ProviderState × World × DirectKernelConnection) :=
  match alistGet p.kernelMetadata kernelId with
  | none => .error ("Kernel metadata for " ++ kernelId ++ " not found")
  | some md =>
    match dispose p w kernelId with
    | (p1, w1) =>
      let filePath := connectionFilePathFor p.tempDir kernelId
      match generateConnectionInfo env w1 kernelId filePath with
      | (ci, w2) => launchKernelAndConnect env p1 w2 kernelId md.pythonPath
          filePath ci

/-- `KernelManager` cache state (src/unnamed/part_007, lines 11-17). -/
structure ManagerState where
  kernels : List (String × DirectKernelConnection)
deriving DecidableEq

/-- `KernelManager.getActiveKernels` (src/unnamed/part_007, lines 23-32):
ids with display names (`kernel.name || "Kernel " + id.substring(0, 8)`). -/
def getActiveKernels (m : ManagerState) : List (String × String) :=
  m.kernels.map (fun kv =>
    (kv.1, if kv.2.name ≠ "" then kv.2.name else "Kernel " ++ kv.1.take 8))

/-- `KernelManager.restartKernel` (src/unnamed/part_007, lines 120-135):
fail when the kernel id is not cached; otherwise provider restart and
re-cache the new connection under the SAME id. -/
def restartKernel (env : Env) (m : ManagerState) (p : ProviderState)
    (w : World) (kernelId : String) :
    Except String (ManagerState × ProviderState × World) :=
  match alistGet m.kernels kernelId with
  | none => .error ("Kernel " ++ kernelId ++ " not found")
  | some _ =>
    match restart env p w kernelId with
    | .error e => .error ("Failed to restart kernel: " ++ e)
    | .ok (p1, w1, newKernel) =>
        .ok (⟨alistSet m.kernels kernelId newKernel⟩, p1, w1)

lemma alistGet_alistSet_self {α : Type} (l : List (String × α)) (k : String)
    (v : α) : alistGet (alistSet l k v) k = some v := by
  induction l with
  | nil => simp [alistSet, alistGet]
  | cons kv rest ih =>
    rcases kv with ⟨k', v'⟩
    by_cases h : k' = k <;> simp [alistSet, alistGet, h, ih]

lemma mem_map_fst_alistSet {α : Type} (l : List (String × α)) (k : String)
    (v : α) : k ∈ (alistSet l k v).map Prod.fst := by
  induction l with
  | nil => simp [alistSet]
  | cons kv rest ih =>
    rcases kv with ⟨k', v'⟩
    by_cases h : k' = k <;> simp [alistSet, h, ih]

/-- C9: restart preserves session identity while regenerating everything
else.  For any session id `S` cached by the manager and present in the
provider's metadata, when the ipykernel check and the connection wait
succeed, `restartKernel S` (1) kills the old process and deletes the old
descriptor file, (2) writes a fresh descriptor carrying the same id `S`
and the five freshly allocated consecutive ports, (3) spawns a new
process and stores it under `S`, (4) returns with the manager's cache
mapping `S` to the new connection whose kernel id is still `S`, and (5)
`getActiveKernels` still reports `S`. -/
theorem c9_restart_preserves_identity (env : Env) (m : ManagerState)
    (p : ProviderState) (w : World) (S : String)
    (conn : DirectKernelConnection) (md : DirectKernelMetadata)
    (hm : alistGet m.kernels S = some conn)
    (hp : alistGet p.kernelMetadata S = some md)
    (hik : env.ipykernelOk = true) (hcn : env.connected = true) :
    ∃ m1 p1 w1, restartKernel env m p w S = .ok (m1, p1, w1)
      ∧ w1.killedPids = w.killedPids ++ [md.pid]
      ∧ w1.spawnedPids = w.spawnedPids ++ [env.newPid]
      ∧ alistGet w1.files (connectionFilePathFor p.tempDir S)
          = some (connInfoFor env S)
      ∧ (connInfoFor env S).kernel_id = S
      ∧ (connInfoFor env S).shell_port = env.basePort
      ∧ alistGet p1.kernelMetadata S
          = some ⟨env.newPid, connectionFilePathFor p.tempDir S, md.pythonPath⟩
      ∧ (∃ newConn, alistGet m1.kernels S = some newConn ∧ newConn.id = S)
      ∧ S ∈ (getActiveKernels m1).map Prod.fst := by
  have hrestart : restart env p w S
      = .ok (⟨p.tempDir,
            alistSet (alistDelete p.kernelMetadata S) S
              ⟨env.newPid, connectionFilePathFor p.tempDir S, md.pythonPath⟩⟩,
          ⟨alistSet (alistDelete w.files md.connectionFilePath)
              (connectionFilePathFor p.tempDir S) (connInfoFor env S),
            w.killedPids ++ [md.pid], w.spawnedPids ++ [env.newPid]⟩,
          ⟨S, "protium-python", connInfoFor env S, env.clientId⟩) := by
    simp [restart, hp, dispose, generateConnectionInfo,
      launchKernelAndConnect, hik, hcn, connInfoFor]
  refine ⟨⟨alistSet m.kernels S
        ⟨S, "protium-python", connInfoFor env S, env.clientId⟩⟩,
    ⟨p.tempDir,
      alistSet (alistDelete p.kernelMetadata S) S
        ⟨env.newPid, connectionFilePathFor p.tempDir S, md.pythonPath⟩⟩,
    ⟨alistSet (alistDelete w.files md.connectionFilePath)
        (connectionFilePathFor p.tempDir S) (connInfoFor env S),
      w.killedPids ++ [md.pid], w.spawnedPids ++ [env.newPid]⟩,
    ?_, rfl, rfl, alistGet_alistSet_self _ _ _, rfl, rfl,
    alistGet_alistSet_self _ _ _,
    ⟨⟨S, "protium-python", connInfoFor env S, env.clientId⟩,
      alistGet_alistSet_self _ _ _, rfl⟩, ?_⟩
  · simp [restartKernel, hm, hrestart]
  · simpa [getActiveKernels, List.map_map] using
      mem_map_fst_alistSet m.kernels S
        ⟨S, "protium-python", connInfoFor env S, env.clientId⟩

theorem c9_restart_preserves_identity_witness :
    ∃ m1 p1 w1,
      restartKernel ⟨7000, "key2", 42, "cl2", true, true⟩
          ⟨[("S", ⟨"S", "protium-python",
              ⟨"S", "protium-python", "tcp", 6000, 6001, 6002, 6003, 6004,
                "127.0.0.1", "key1", "hmac-sha256"⟩, "cl1"⟩)]⟩
          ⟨"/tmp/protium-kernels",
            [("S", ⟨41, "/tmp/protium-kernels/kernel-S.json", "python3"⟩)]⟩
          ⟨[("/tmp/protium-kernels/kernel-S.json",
              ⟨"S", "protium-python", "tcp", 6000, 6001, 6002, 6003, 6004,
                "127.0.0.1", "key1", "hmac-sha256"⟩)], [], [41]⟩ "S"
        = .ok (m1, p1, w1)
      ∧ w1.killedPids = [] ++ [41]
      ∧ w1.spawnedPids = [41] ++ [42]
      ∧ alistGet w1.files
          (connectionFilePathFor "/tmp/protium-kernels" "S")
          = some (connInfoFor ⟨7000, "key2", 42, "cl2", true, true⟩ "S")
      ∧ (connInfoFor ⟨7000, "key2", 42, "cl2", true, true⟩ "S").kernel_id = "S"
      ∧ (connInfoFor ⟨7000, "key2", 42, "cl2", true, true⟩ "S").shell_port = 7000
      ∧ alistGet p1.kernelMetadata "S"
          = some ⟨42, connectionFilePathFor "/tmp/protium-kernels" "S", "python3"⟩
      ∧ (∃ newConn, alistGet m1.kernels "S" = some newConn ∧ newConn.id = "S")
      ∧ "S" ∈ (getActiveKernels m1).map Prod.fst :=
  c9_restart_preserves_identity ⟨7000, "key2", 42, "cl2", true, true⟩
    ⟨[("S", ⟨"S", "protium-python",
        ⟨"S", "protium-python", "tcp", 6000, 6001, 6002, 6003, 6004,
          "127.0.0.1", "key1", "hmac-sha256"⟩, "cl1"⟩)]⟩
    ⟨"/tmp/protium-kernels",
      [("S", ⟨41, "/tmp/protium-kernels/kernel-S.json", "python3"⟩)]⟩
    ⟨[("/tmp/protium-kernels/kernel-S.json",
        ⟨"S", "protium-python", "tcp", 6000, 6001, 6002, 6003, 6004,
          "127.0.0.1", "key1", "hmac-sha256"⟩)], [], [41]⟩ "S"
    ⟨"S", "protium-python",
      ⟨"S", "protium-python", "tcp", 6000, 6001, 6002, 6003, 6004,
        "127.0.0.1", "key1", "hmac-sha256"⟩, "cl1"⟩
    ⟨41, "/tmp/protium-kernels/kernel-S.json", "python3"⟩
    rfl rfl rfl rfl

end Provider

namespace Heap

/-
Object-identity model for the streaming notifications of
`ExecutionFuture`: result records live in a heap of addresses, `_result`
is the object at `resultAddr`, and `emitStream({ ...this._result })`
(src/kernel/direct/execution-future.ts, lines 101-103 and 230-233)
allocates a FRESH object holding a field-copy of the internal result and
hands its address to the listeners.  A listener mutating its snapshot is a
heap write at the snapshot's address.  Had the source passed
`this._result` itself, the emitted address would be `resultAddr` and the
isolation theorem below would fail.
-/

def heapGet : List (Nat × Future.ExecResult) → Nat → Option Future.ExecResult
  | [], _ => none
  | (a, r) :: rest, addr => if a = addr then some r else heapGet rest addr

def heapSet : List (Nat × Future.ExecResult) → Nat → Future.ExecResult →
    List (Nat × Future.ExecResult)
  | [], a, r => [(a, r)]
  | (a', r') :: rest, a, r =>
    if a' = a then (a, r) :: rest else (a', r') :: heapSet rest a r

structure HeapModel where
  heap : List (Nat × Future.ExecResult)
  nextAddr : Nat
  resultAddr : Nat
  emittedAddrs : List Nat
deriving DecidableEq

/-- The freshly constructed future: `_result = { status: "ok" }` at
address 0, no snapshots emitted yet. -/
def initModel : HeapModel := ⟨[(0, ⟨none, none, none, none, "ok"⟩)], 1, 0, []⟩

/-- `emitStream({ ...this._result })`: allocate a fresh address, store a
field-copy of the current result there, pass that address to every
listener. -/
def emitCopy (m : HeapModel) (r : Future.ExecResult) : HeapModel :=
  { m with
    heap := heapSet m.heap m.nextAddr r
    nextAddr := m.nextAddr + 1
    emittedAddrs := m.emittedAddrs ++ [m.nextAddr] }

/-- `ExecutionFuture.handleIOPubOutput` on the heap: mutate the internal
result object in place, then, when `shouldNotify`, emit a fresh copy. -/
def handleIOPubOutputH (m : HeapModel) (msg : Future.InMessage) : HeapModel :=
  match heapGet m.heap m.resultAddr with
  | none => m
  | some r =>
    match Future.accumulateOutput r msg with
    | (r', true) => emitCopy { m with heap := heapSet m.heap m.resultAddr r' } r'
    | (r', false) => { m with heap := heapSet m.heap m.resultAddr r' }

def processMsgs (m : HeapModel) (msgs : List Future.InMessage) : HeapModel :=
  msgs.foldl handleIOPubOutputH m

/-- A listener mutating the snapshot object it received: an arbitrary
field rewrite of the object stored at address `a`. -/
def mutateAt (m : HeapModel) (a : Nat)
    (f : Future.ExecResult → Future.ExecResult) : HeapModel :=
  match heapGet m.heap a with
  | none => m
  | some r => { m with heap := heapSet m.heap a (f r) }

lemma heapGet_heapSet_self (l : List (Nat × Future.ExecResult)) (a : Nat)
    (r : Future.ExecResult) : heapGet (heapSet l a r) a = some r := by
  induction l with
  | nil => simp [heapSet, heapGet]
  | cons kv rest ih =>
    rcases kv with ⟨a', r'⟩
    by_cases h : a' = a <;> simp [heapSet, heapGet, h, ih]

lemma heapGet_heapSet_other (l : List (Nat × Future.ExecResult)) (a' a : Nat)
    (r : Future.ExecResult) (h : a' ≠ a) :
    heapGet (heapSet l a' r) a = heapGet l a := by
  induction l with
  | nil => simp [heapSet, heapGet, h]
  | cons kv rest ih =>
    rcases kv with ⟨x, y⟩
    by_cases hx : x = a'
    · subst hx
      simp [heapSet, heapGet, h]
    · by_cases hxa : x = a <;> simp [heapSet, heapGet, hx, hxa, ih, Ne.symm h]

/-- The allocation invariant of the model: the internal result lives
strictly below the allocation frontier, and every snapshot address handed
to a listener differs from the internal result's address and lies below
the frontier. -/
def Inv (m : HeapModel) : Prop :=
  m.resultAddr < m.nextAddr
    ∧ ∀ e ∈ m.emittedAddrs, e ≠ m.resultAddr ∧ e < m.nextAddr

lemma inv_init : Inv initModel := ⟨Nat.zero_lt_one, by simp [initModel]⟩

lemma handleIOPubOutputH_resultAddr (m : HeapModel) (msg : Future.InMessage) :
    (handleIOPubOutputH m msg).resultAddr = m.resultAddr := by
  unfold handleIOPubOutputH
  cases heapGet m.heap m.resultAddr with
  | none => rfl
  | some r =>
    rcases h : Future.accumulateOutput r msg with ⟨r', b⟩
    cases b <;> simp [h, emitCopy]

lemma handleIOPubOutputH_nextAddr_mono (m : HeapModel)
    (msg : Future.InMessage) : m.nextAddr ≤ (handleIOPubOutputH m msg).nextAddr := by
  unfold handleIOPubOutputH
  cases heapGet m.heap m.resultAddr with
  | none => exact le_refl _
  | some r =>
    rcases h : Future.accumulateOutput r msg with ⟨r', b⟩
    cases b <;> simp [h, emitCopy]

lemma inv_step (m : HeapModel) (msg : Future.InMessage) (hm : Inv m) :
    Inv (handleIOPubOutputH m msg) := by
  obtain ⟨h1, h2⟩ := hm
  unfold handleIOPubOutputH
  cases heapGet m.heap m.resultAddr with
  | none => exact ⟨h1, h2⟩
  | some r =>
    rcases h : Future.accumulateOutput r msg with ⟨r', b⟩
    cases b with
    | false =>
      simp only [h]
      exact ⟨h1, h2⟩
    | true =>
      simp only [h]
      refine ⟨Nat.lt_succ_of_lt h1, ?_⟩
      intro e he
      have he' : e ∈ m.emittedAddrs ++ [m.nextAddr] := he
      rcases List.mem_append.mp he' with hin | hin
      · obtain ⟨ha, hb2⟩ := h2 e hin
        exact ⟨ha, Nat.lt_succ_of_lt hb2⟩
      · have heq : e = m.nextAddr := by simpa using hin
        subst heq
        exact ⟨by show m.nextAddr ≠ m.resultAddr; omega, Nat.lt_succ_self _⟩

lemma inv_processMsgs : ∀ (msgs : List Future.InMessage) (m : HeapModel),
    Inv m → Inv (processMsgs m msgs) := by
  intro msgs
  induction msgs with
  | nil => intro m hm; exact hm
  | cons x xs ih =>
    intro m hm
    exact ih _ (inv_step m x hm)

lemma processMsgs_resultAddr (msgs : List Future.InMessage) :
    ∀ m : HeapModel, (processMsgs m msgs).resultAddr = m.resultAddr := by
  induction msgs with
  | nil => intro m; rfl
  | cons x xs ih =>
    intro m
    rw [show processMsgs m (x :: xs) = processMsgs (handleIOPubOutputH m x) xs
      from rfl, ih, handleIOPubOutputH_resultAddr]

lemma emitted_growth : ∀ (msgs : List Future.InMessage) (m : HeapModel),
    ∀ e ∈ (processMsgs m msgs).emittedAddrs,
      e ∈ m.emittedAddrs ∨ m.nextAddr ≤ e := by
  intro msgs
  induction msgs with
  | nil => intro m e he; exact Or.inl he
  | cons x xs ih =>
    intro m e he
    rcases ih (handleIOPubOutputH m x) e he with h | h
    · revert h
      unfold handleIOPubOutputH
      cases heapGet m.heap m.resultAddr with
      | none => exact Or.inl
      | some r =>
        rcases hacc : Future.accumulateOutput r x with ⟨r', b⟩
        cases b
        · simp [hacc]
          exact Or.inl
        · simp [hacc, emitCopy]
          intro h
          rcases h with h | h
          · exact Or.inl h
          · exact Or.inr (le_of_eq h.symm)
    · exact Or.inr (le_trans (handleIOPubOutputH_nextAddr_mono m x) h)

/-- One-step simulation: two heaps that agree everywhere except at
address `b` (distinct from the internal result address) and share the
bookkeeping state evolve identically, because the step only reads the
internal result object and writes the internal result object and a fresh
snapshot — never the listener-held address `b`. -/
lemma step_sim (msg : Future.InMessage) (m1 m2 : HeapModel) (b : Nat)
    (hra : m1.resultAddr = m2.resultAddr)
    (hna : m1.nextAddr = m2.nextAddr)
    (hem : m1.emittedAddrs = m2.emittedAddrs)
    (hag : ∀ a, a ≠ b → heapGet m1.heap a = heapGet m2.heap a)
    (hrb : m1.resultAddr ≠ b) :
    (handleIOPubOutputH m1 msg).resultAddr
        = (handleIOPubOutputH m2 msg).resultAddr
    ∧ (handleIOPubOutputH m1 msg).nextAddr
        = (handleIOPubOutputH m2 msg).nextAddr
    ∧ (handleIOPubOutputH m1 msg).emittedAddrs
        = (handleIOPubOutputH m2 msg).emittedAddrs
    ∧ ∀ a, a ≠ b → heapGet (handleIOPubOutputH m1 msg).heap a
        = heapGet (handleIOPubOutputH m2 msg).heap a := by
  have hr12 : heapGet m2.heap m2.resultAddr = heapGet m1.heap m1.resultAddr := by
    rw [← hra]
    exact (hag m1.resultAddr hrb).symm
  unfold handleIOPubOutputH
  rw [hr12]
  cases hr : heapGet m1.heap m1.resultAddr with
  | none => exact ⟨hra, hna, hem, hag⟩
  | some r =>
    rcases hacc : Future.accumulateOutput r msg with ⟨r', bn⟩
    have hsetag : ∀ a, a ≠ b →
        heapGet (heapSet m1.heap m1.resultAddr r') a
          = heapGet (heapSet m2.heap m2.resultAddr r') a := by
      intro a hab
      by_cases har : a = m1.resultAddr
      · subst har
        rw [heapGet_heapSet_self, ← hra, heapGet_heapSet_self]
      · rw [heapGet_heapSet_other _ _ _ _ (Ne.symm har), ← hra,
          heapGet_heapSet_other _ _ _ _ (Ne.symm har)]
        exact hag a hab
    cases bn with
    | false =>
      simp only [hacc]
      exact ⟨hra, hna, hem, hsetag⟩
    | true =>
      simp only [hacc]
      refine ⟨hra, by show m1.nextAddr + 1 = m2.nextAddr + 1; rw [hna],
        by show m1.emittedAddrs ++ [m1.nextAddr]
            = m2.emittedAddrs ++ [m2.nextAddr]; rw [hna, hem], ?_⟩
      intro a hab
      show heapGet (heapSet (heapSet m1.heap m1.resultAddr r') m1.nextAddr r') a
        = heapGet (heapSet (heapSet m2.heap m2.resultAddr r') m2.nextAddr r') a
      by_cases han : a = m1.nextAddr
      · subst han
        rw [heapGet_heapSet_self, ← hna, heapGet_heapSet_self]
      · rw [heapGet_heapSet_other _ _ _ _ (Ne.symm han), ← hna,
          heapGet_heapSet_other _ _ _ _ (Ne.symm han)]
        exact hsetag a hab

lemma processMsgs_sim : ∀ (msgs : List Future.InMessage)
    (m1 m2 : HeapModel) (b : Nat),
    m1.resultAddr = m2.resultAddr → m1.nextAddr = m2.nextAddr →
    m1.emittedAddrs = m2.emittedAddrs →
    (∀ a, a ≠ b → heapGet m1.heap a = heapGet m2.heap a) →
    m1.resultAddr ≠ b →
    (processMsgs m1 msgs).emittedAddrs = (processMsgs m2 msgs).emittedAddrs
    ∧ ∀ a, a ≠ b → heapGet (processMsgs m1 msgs).heap a
        = heapGet (processMsgs m2 msgs).heap a := by
  intro msgs
  induction msgs with
  | nil => intro m1 m2 b hra hna hem hag _; exact ⟨hem, hag⟩
  | cons x xs ih =>
    intro m1 m2 b hra hna hem hag hrb
    obtain ⟨sra, sna, sem, sag⟩ := step_sim x m1 m2 b hra hna hem hag hrb
    have hres : (handleIOPubOutputH m1 x).resultAddr = m1.resultAddr :=
      handleIOPubOutputH_resultAddr m1 x
    exact ih (handleIOPubOutputH m1 x) (handleIOPubOutputH m2 x) b
      sra sna sem sag (hres ▸ hrb)

lemma mutateAt_resultAddr (m : HeapModel) (b : Nat)
    (f : Future.ExecResult → Future.ExecResult) :
    (mutateAt m b f).resultAddr = m.resultAddr := by
  unfold mutateAt
  cases heapGet m.heap b <;> rfl

lemma mutateAt_nextAddr (m : HeapModel) (b : Nat)
    (f : Future.ExecResult → Future.ExecResult) :
    (mutateAt m b f).nextAddr = m.nextAddr := by
  unfold mutateAt
  cases heapGet m.heap b <;> rfl

lemma mutateAt_emittedAddrs (m : HeapModel) (b : Nat)
    (f : Future.ExecResult → Future.ExecResult) :
    (mutateAt m b f).emittedAddrs = m.emittedAddrs := by
  unfold mutateAt
  cases heapGet m.heap b <;> rfl

lemma mutateAt_heapGet_other (m : HeapModel) (b : Nat)
    (f : Future.ExecResult → Future.ExecResult) (a : Nat) (hab : a ≠ b) :
    heapGet (mutateAt m b f).heap a = heapGet m.heap a := by
  unfold mutateAt
  cases heapGet m.heap b with
  | none => rfl
  | some r => exact heapGet_heapSet_other _ _ _ _ (Ne.symm hab)

/-- C10: snapshot isolation of the streaming notifications.  Run the
future over any prefix of iopub traffic and let `b` be the address of any
snapshot handed to a listener.  Then (1) `b` is not the internal result
object (`emitStream` passed a fresh shallow copy, not `this._result`),
(2) a listener mutation of that snapshot leaves the internal accumulated
result unchanged, (3) processing any further traffic emits exactly the
same snapshot addresses as it would have without the mutation, and (4)
every object other than the mutated snapshot itself — the internal result
and all other (also all subsequently emitted) snapshots — has the same
contents afterwards as it would have had without the mutation. -/
theorem c10_snapshot_isolation (pre post : List Future.InMessage) (b : Nat)
    (f : Future.ExecResult → Future.ExecResult)
    (hb : b ∈ (processMsgs initModel pre).emittedAddrs) :
    b ≠ (processMsgs initModel pre).resultAddr
    ∧ heapGet (mutateAt (processMsgs initModel pre) b f).heap
          (processMsgs initModel pre).resultAddr
        = heapGet (processMsgs initModel pre).heap
          (processMsgs initModel pre).resultAddr
    ∧ (processMsgs (mutateAt (processMsgs initModel pre) b f) post).emittedAddrs
        = (processMsgs (processMsgs initModel pre) post).emittedAddrs
    ∧ ∀ a, a ≠ b →
        heapGet (processMsgs (mutateAt (processMsgs initModel pre) b f) post).heap a
          = heapGet (processMsgs (processMsgs initModel pre) post).heap a := by
  have hinv : Inv (processMsgs initModel pre) :=
    inv_processMsgs pre initModel inv_init
  have hbne : b ≠ (processMsgs initModel pre).resultAddr := (hinv.2 b hb).1
  refine ⟨hbne, mutateAt_heapGet_other _ b f _ (Ne.symm hbne), ?_⟩
  exact processMsgs_sim post (mutateAt (processMsgs initModel pre) b f)
    (processMsgs initModel pre) b
    (mutateAt_resultAddr _ b f) (mutateAt_nextAddr _ b f)
    (mutateAt_emittedAddrs _ b f)
    (fun a hab => mutateAt_heapGet_other _ b f a hab)
    (by rw [mutateAt_resultAddr _ b f]; exact Ne.symm hbne)

theorem c10_snapshot_isolation_witness :
    1 ≠ (processMsgs initModel
        [⟨"iopub", "stream", "x", ⟨"", none, "stdout", "hi", none, none, ""⟩⟩]
        ).resultAddr
    ∧ heapGet (mutateAt (processMsgs initModel
          [⟨"iopub", "stream", "x", ⟨"", none, "stdout", "hi", none, none, ""⟩⟩])
          1 (fun r => { r with output := some "MUT" })).heap
        (processMsgs initModel
          [⟨"iopub", "stream", "x", ⟨"", none, "stdout", "hi", none, none, ""⟩⟩]
          ).resultAddr
      = heapGet (processMsgs initModel
          [⟨"iopub", "stream", "x", ⟨"", none, "stdout", "hi", none, none, ""⟩⟩]
          ).heap
        (processMsgs initModel
          [⟨"iopub", "stream", "x", ⟨"", none, "stdout", "hi", none, none, ""⟩⟩]
          ).resultAddr
    ∧ (processMsgs (mutateAt (processMsgs initModel
          [⟨"iopub", "stream", "x", ⟨"", none, "stdout", "hi", none, none, ""⟩⟩])
          1 (fun r => { r with output := some "MUT" }))
        [⟨"iopub", "stream", "x", ⟨"", none, "stdout", "world", none, none, ""⟩⟩]
        ).emittedAddrs
      = (processMsgs (processMsgs initModel
          [⟨"iopub", "stream", "x", ⟨"", none, "stdout", "hi", none, none, ""⟩⟩])
        [⟨"iopub", "stream", "x", ⟨"", none, "stdout", "world", none, none, ""⟩⟩]
        ).emittedAddrs
    ∧ ∀ a, a ≠ 1 →
        heapGet (processMsgs (mutateAt (processMsgs initModel
            [⟨"iopub", "stream", "x", ⟨"", none, "stdout", "hi", none, none, ""⟩⟩])
            1 (fun r => { r with output := some "MUT" }))
          [⟨"iopub", "stream", "x", ⟨"", none, "stdout", "world", none, none, ""⟩⟩]
          ).heap a
        = heapGet (processMsgs (processMsgs initModel
            [⟨"iopub", "stream", "x", ⟨"", none, "stdout", "hi", none, none, ""⟩⟩])
          [⟨"iopub", "stream", "x", ⟨"", none, "stdout", "world", none, none, ""⟩⟩]
          ).heap a :=
  c10_snapshot_isolation
    [⟨"iopub", "stream", "x", ⟨"", none, "stdout", "hi", none, none, ""⟩⟩]
    [⟨"iopub", "stream", "x", ⟨"", none, "stdout", "world", none, none, ""⟩⟩]
    1 (fun r => { r with output := some "MUT" }) (by decide)

end Heap
